import Mathlib

/-!
Verification development for the card/deck library `lib/decks.py` of the
history-skeleton-generator repository.

The Python source is shallowly embedded below:
  * card variants (`Ace`, `FaceCard`, `NumberCard`) become `Except`-returning
    constructors producing a `Card` structure (Python raising `ValueError` or
    `IndexError` becomes returning a `PyError`);
  * the deck classes (`AbstractDeck`, `StdDeck`, `CardShoe`) become functions
    from an abstract random source to a `DeckState`.  The random source is
    passed explicitly: `shuffles i` is the list permutation performed by the
    i-th call to `random.shuffle`, and `pick` is the oracle value consumed by
    the single `random.randint(0, size)` call.
-/

/-- Error kinds surfaced by the Python code: the two `ValueError`s raised by
card construction, the `ValueError` raised by `random.randint` on an empty
range, and the `IndexError` raised by `list.pop(0)` on an empty list. -/
inductive PyError where
  | invalidRank
  | invalidSuit
  | emptyRange
  | indexOutOfRange
deriving DecidableEq, Repr

/-- Which Python subclass of `AbstractCard` a card was built by. -/
inductive CardKind where
  | ace
  | number
  | face
deriving DecidableEq, Repr

/-- A constructed card object: `rank` and `suit` as validated strings, the
Blackjack `value` set by the subclass constructor, the Ace-only `high_value`,
and the subclass tag. -/
structure Card where
  rank : String
  suit : String
  value : Nat
  high_value : Option Nat
  kind : CardKind
deriving DecidableEq, Repr

/-- `AbstractCard.RANKS` from the source. -/
def RANKS : List String :=
  ["A", "2", "3", "4", "5", "6", "7", "8", "9", "10", "J", "Q", "K"]

/-- `AbstractCard.SUITS` from the source. -/
def SUITS : List String := ["S", "D", "H", "C"]

/-- `AbstractCard.FACECARDS` from the source. -/
def FACECARDS : List String := ["J", "Q", "K"]

/-- `AbstractCard.NUMBERCARDS` from the source. -/
def NUMBERCARDS : List String :=
  ["2", "3", "4", "5", "6", "7", "8", "9", "10"]

/-- `AbstractCard.__init__`: validates rank against `RANKS`, then suit against
`SUITS`, raising `ValueError` (here: the corresponding `PyError`) on failure,
and otherwise stores the pair.  The `value` attribute is left to subclasses. -/
def AbstractCard.init (rank suit : String) : Except PyError (String × String) :=
  if rank ∉ RANKS then .error .invalidRank
  else if suit ∉ SUITS then .error .invalidSuit
  else .ok (rank, suit)

/-- `Ace.__init__`: calls `AbstractCard.__init__` with rank fixed to `"A"`,
then sets `value = 1` and `high_value = 11`. -/
def Ace.init (suit : String) : Except PyError Card := do
  let rs ← AbstractCard.init "A" suit
  pure { rank := rs.1, suit := rs.2, value := 1, high_value := some 11,
         kind := .ace }

/-- `FaceCard.CARDVALUE` from the source. -/
def FaceCard.CARDVALUE : Nat := 10

/-- `FaceCard.__init__`: rejects ranks outside `FACECARDS`, then calls
`AbstractCard.__init__` and sets `value = CARDVALUE`. -/
def FaceCard.init (rank suit : String) : Except PyError Card :=
  if rank ∉ FACECARDS then .error .invalidRank
  else do
    let rs ← AbstractCard.init rank suit
    pure { rank := rs.1, suit := rs.2, value := FaceCard.CARDVALUE,
           high_value := none, kind := .face }

/-- Model of Python's `int()` on a string of decimal digits (the only inputs
it ever receives here: `NumberCard.__init__` applies it to a member of
`NUMBERCARDS`, all of which are digit strings). -/
def strToNat (s : String) : Nat :=
  s.data.foldl (fun n c => n * 10 + (c.toNat - 48)) 0

/-- `NumberCard.__init__`: rejects ranks outside `NUMBERCARDS`, then calls
`AbstractCard.__init__` and sets `value = int(rank)`. -/
def NumberCard.init (rank suit : String) : Except PyError Card :=
  if rank ∉ NUMBERCARDS then .error .invalidRank
  else do
    let rs ← AbstractCard.init rank suit
    pure { rank := rs.1, suit := rs.2, value := strToNat rs.1,
           high_value := none, kind := .number }

/-- `AbstractCard.__eq__` (inherited verbatim by every subclass): two cards
are equal iff their `(rank, suit)` pairs match. -/
def cardEq (a b : Card) : Bool :=
  if (a.rank, a.suit) = (b.rank, b.suit) then true else false

/-- `AbstractCard.__lt__` (inherited verbatim by every subclass): equality is
eliminated first; then ranks are compared by index in `RANKS`; on equal rank,
suits are compared by index in the reversed `SUITS`.  (Python's `list.index`
raising on an element not present is not modelled: `__lt__` is only invoked on
cards whose rank and suit were validated at construction.) -/
def cardLt (a b : Card) : Bool :=
  if cardEq a b then false
  else if RANKS.indexOf a.rank < RANKS.indexOf b.rank then true
  else if a.rank = b.rank ∧
      SUITS.reverse.indexOf a.suit < SUITS.reverse.indexOf b.suit then true
  else false

/-- `AbstractCard.__le__`: equality or strict order. -/
def cardLe (a b : Card) : Bool :=
  cardEq a b || cardLt a b

/-- The card-construction dispatch inside `AbstractDeck.__init__`'s loop:
`Ace` for rank `'A'`, `NumberCard` for a rank in `NUMBERCARDS`, otherwise
`FaceCard`. -/
def buildCard (rank suit : String) : Except PyError Card :=
  if rank = "A" then Ace.init suit
  else if rank ∈ NUMBERCARDS then NumberCard.init rank suit
  else FaceCard.init rank suit

/-- The card `buildCard rank suit` produces when `rank` and `suit` are valid
(total companion used to state what the enumerated deck contains). -/
def mkCardTotal (rank suit : String) : Card :=
  if rank = "A" then
    { rank := "A", suit := suit, value := 1, high_value := some 11,
      kind := .ace }
  else if rank ∈ NUMBERCARDS then
    { rank := rank, suit := suit, value := strToNat rank,
      high_value := none, kind := .number }
  else
    { rank := rank, suit := suit, value := FaceCard.CARDVALUE,
      high_value := none, kind := .face }

/-- One full enumeration pass of `AbstractDeck.__init__`: suits outer (in
`SUITS` order), ranks inner (in `RANKS` order). -/
def onePass : List Card :=
  SUITS.flatMap (fun suit => RANKS.map (fun rank => mkCardTotal rank suit))

/-- The unshuffled deck: `num_decks` concatenated enumeration passes. -/
def enumDeck (num_decks : Nat) : List Card :=
  (List.range num_decks).flatMap (fun _ => onePass)

/-- The body of `for i in range(num_decks)` in `AbstractDeck.__init__`: one
pass over suits (outer) and ranks (inner), appending each constructed card. -/
def buildPass (acc : List Card) : Except PyError (List Card) :=
  SUITS.foldlM (fun a suit =>
    RANKS.foldlM (fun a2 rank =>
      (buildCard rank suit).map (fun c => a2 ++ [c])) a) acc

/-- The full construction loop of `AbstractDeck.__init__`: `num_decks`
iterations of `buildPass`, an exception anywhere aborting the whole build. -/
def buildLoop : Nat → List Card → Except PyError (List Card)
  | 0, acc => .ok acc
  | n + 1, acc => do
    let a2 ← buildPass acc
    buildLoop n a2

/-- A deck object: the mutable list contents plus the `size` attribute fixed
at construction (`52 * num_decks`, an integer since Python would happily store
a negative product). -/
structure DeckState where
  cards : List Card
  size : Int
deriving DecidableEq, Repr

/-- Model of Python's `random.randint(lo, hi)`: raises `ValueError` when
`hi < lo` (empty range), and otherwise returns a value in `[lo, hi]`
determined here by the oracle value `pick`. -/
def randintModel (pick : Nat) (lo hi : Int) : Except PyError Int :=
  if hi < lo then .error .emptyRange
  else .ok (lo + (pick : Int) % (hi - lo + 1))

/-- The extra-entropy loop of `AbstractDeck.__init__`: `k` further calls to
`random.shuffle`, the i-th call to `random.shuffle` overall being modelled by
the oracle permutation `shuffles i`. -/
def applyShuffles (shuffles : Nat → List Card → List Card) :
    Nat → Nat → List Card → List Card
  | _, 0, d => d
  | i, k + 1, d => applyShuffles shuffles (i + 1) k (shuffles i d)

/-- `AbstractDeck.__init__`: reads `num_decks` from the keyword arguments
(default 1), sets `size = 52 * num_decks`, builds the unshuffled deck, calls
`random.shuffle` once, then performs `random.randint(0, size)` additional
shuffles. -/
def AbstractDeck.init (shuffles : Nat → List Card → List Card) (pick : Nat)
    (kwrds : Option Int) : Except PyError DeckState := do
  let num_decks : Int := kwrds.getD 1
  let size : Int := 52 * num_decks
  let deck ← buildLoop num_decks.toNat []
  let deck := shuffles 0 deck
  let extra ← randintModel pick 0 size
  let deck := applyShuffles shuffles 1 extra.toNat deck
  pure { cards := deck, size := size }

/-- `StdDeck.__init__`: overwrites any supplied `num_decks` with 1 before
delegating to `AbstractDeck.__init__`. -/
def StdDeck.init (shuffles : Nat → List Card → List Card) (pick : Nat)
    (kwrds : Option Int) : Except PyError DeckState :=
  AbstractDeck.init shuffles pick (some 1)

/-- `CardShoe.__init__`: inserts `num_decks = 6` when the keyword is absent,
then delegates to `AbstractDeck.__init__`. -/
def CardShoe.init (shuffles : Nat → List Card → List Card) (pick : Nat)
    (kwrds : Option Int) : Except PyError DeckState :=
  AbstractDeck.init shuffles pick (some (kwrds.getD 6))

/-- `AbstractDeck.remove_top`, i.e. `self.pop(0)`: removes and returns the
front card, raising `IndexError` on an empty deck. -/
def remove_top (d : DeckState) : Except PyError (Card × DeckState) :=
  match d.cards with
  | [] => .error .indexOutOfRange
  | c :: rest => .ok (c, { cards := rest, size := d.size })

/-- `AbstractDeck.remaining_cards`: the status string built from the current
length and the `size` attribute. -/
def remaining_cards (d : DeckState) : String :=
  toString d.cards.length ++ " of " ++ toString d.size ++ " cards remain"

/-- `k` successive `remove_top` calls, collecting the drawn cards in order. -/
def drawN : Nat → DeckState → Except PyError (List Card × DeckState)
  | 0, d => .ok ([], d)
  | k + 1, d => do
    let cd ← remove_top d
    let rest ← drawN k cd.2
    pure (cd.1 :: rest.1, rest.2)

/-! ### Helper lemmas about deck construction -/

deriving instance DecidableEq for Except

/-- Every rank/suit pair enumerated by the deck loop constructs successfully,
yielding the corresponding total card. -/
theorem buildCard_valid :
    ∀ s ∈ SUITS, ∀ r ∈ RANKS, buildCard r s = .ok (mkCardTotal r s) := by
  decide

/-- Evaluation of the inner (rank) fold of `buildPass`. -/
theorem foldlM_build_ranks (s : String) :
    ∀ rs : List String, (∀ r ∈ rs, buildCard r s = .ok (mkCardTotal r s)) →
    ∀ a : List Card,
      rs.foldlM (fun a2 rank => (buildCard rank s).map (fun c => a2 ++ [c])) a
        = .ok (a ++ rs.map (fun r => mkCardTotal r s)) := by
  intro rs
  induction rs with
  | nil => intro _ a; simp [List.foldlM]; rfl
  | cons r rs ih =>
    intro h a
    have hr := h r (by simp)
    have hrs : ∀ x ∈ rs, buildCard x s = .ok (mkCardTotal x s) := by
      intro x hx; exact h x (by simp [hx])
    have hstep := ih hrs (a ++ [mkCardTotal r s])
    rw [List.foldlM_cons, hr]
    exact hstep.trans (by simp)

/-- Evaluation of the outer (suit) fold of `buildPass`. -/
theorem foldlM_build_suits :
    ∀ ss : List String,
    (∀ s ∈ ss, ∀ r ∈ RANKS, buildCard r s = .ok (mkCardTotal r s)) →
    ∀ a : List Card,
      ss.foldlM (fun a1 suit =>
          RANKS.foldlM (fun a2 rank =>
            (buildCard rank suit).map (fun c => a2 ++ [c])) a1) a
        = .ok (a ++ ss.flatMap (fun s => RANKS.map (fun r => mkCardTotal r s))) := by
  intro ss
  induction ss with
  | nil => intro _ a; simp [List.foldlM]; rfl
  | cons s ss ih =>
    intro h a
    have hs := h s (by simp)
    have hss : ∀ x ∈ ss, ∀ r ∈ RANKS, buildCard r x = .ok (mkCardTotal r x) := by
      intro x hx; exact h x (by simp [hx])
    have hstep := ih hss (a ++ RANKS.map (fun r => mkCardTotal r s))
    rw [List.foldlM_cons, foldlM_build_ranks s RANKS hs a]
    exact hstep.trans (by simp)

/-- One pass of the construction loop appends exactly `onePass`. -/
theorem buildPass_eq (acc : List Card) : buildPass acc = .ok (acc ++ onePass) := by
  have h := foldlM_build_suits SUITS buildCard_valid acc
  simpa [buildPass, onePass] using h

/-- Splitting off the first enumeration pass. -/
theorem enumDeck_succ (n : Nat) : enumDeck (n + 1) = onePass ++ enumDeck n := by
  simp [enumDeck, List.range_succ_eq_map, List.flatMap_map, Function.comp]

/-- The construction loop succeeds and appends the full enumeration. -/
theorem buildLoop_eq : ∀ (n : Nat) (acc : List Card),
    buildLoop n acc = .ok (acc ++ enumDeck n) := by
  intro n
  induction n with
  | zero => intro acc; simp [buildLoop, enumDeck]
  | succ n ih =>
    intro acc
    simp only [buildLoop, buildPass_eq, bind, Except.bind, ih, enumDeck_succ]
    simp

/-- Each extra-entropy pass permutes the list, so the whole loop does. -/
theorem applyShuffles_perm (shuffles : Nat → List Card → List Card)
    (hs : ∀ i l, (shuffles i l).Perm l) :
    ∀ (k i : Nat) (d : List Card), (applyShuffles shuffles i k d).Perm d := by
  intro k
  induction k with
  | zero => intro i d; simp [applyShuffles]
  | succ k ih =>
    intro i d
    exact (ih (i + 1) (shuffles i d)).trans (hs i d)

/-- Closed form of `AbstractDeck.init` for a non-negative deck count. -/
theorem AbstractDeck.init_ok (shuffles : Nat → List Card → List Card)
    (pick : Nat) (kwrds : Option Int) (h0 : 0 ≤ kwrds.getD 1) :
    AbstractDeck.init shuffles pick kwrds =
      .ok { cards := applyShuffles shuffles 1
              ((pick : Int) % (52 * kwrds.getD 1 + 1)).toNat
              (shuffles 0 (enumDeck (kwrds.getD 1).toNat)),
            size := 52 * kwrds.getD 1 } := by
  have hsz : ¬ (52 * kwrds.getD 1 < 0) := by omega
  simp [AbstractDeck.init, buildLoop_eq, randintModel, hsz, bind, Except.bind]
  rfl

/-- The constructed deck contents permute the enumerated multiset. -/
theorem AbstractDeck.init_perm (shuffles : Nat → List Card → List Card)
    (pick : Nat) (kwrds : Option Int) (h0 : 0 ≤ kwrds.getD 1)
    (hs : ∀ i l, (shuffles i l).Perm l) :
    ∃ d, AbstractDeck.init shuffles pick kwrds = .ok d ∧
      d.cards.Perm (enumDeck (kwrds.getD 1).toNat) ∧
      d.size = 52 * kwrds.getD 1 := by
  refine ⟨_, AbstractDeck.init_ok shuffles pick kwrds h0, ?_, rfl⟩
  exact (applyShuffles_perm shuffles hs _ _ _).trans (hs 0 _)

/-! ### Counting lemmas for the enumerated deck -/

/-- Counting over the concatenated passes multiplies the one-pass count. -/
theorem enumDeck_countP (p : Card → Bool) :
    ∀ n : Nat, (enumDeck n).countP p = n * onePass.countP p := by
  intro n
  induction n with
  | zero => simp [enumDeck]
  | succ n ih =>
    rw [enumDeck_succ, List.countP_append, ih]
    ring

/-- Length of the enumerated deck. -/
theorem enumDeck_length : ∀ n : Nat, (enumDeck n).length = n * 52 := by
  intro n
  induction n with
  | zero => simp [enumDeck]
  | succ n ih =>
    rw [enumDeck_succ, List.length_append, ih]
    have h : onePass.length = 52 := by decide
    omega

/-- Each (rank, suit) pair occurs exactly once in one enumeration pass. -/
theorem onePass_countP_pair : ∀ r ∈ RANKS, ∀ s ∈ SUITS,
    onePass.countP (fun c => c.rank == r && c.suit == s) = 1 := by
  decide

/-- Each rank occurs exactly 4 times (once per suit) in one pass. -/
theorem onePass_countP_rank : ∀ r ∈ RANKS,
    onePass.countP (fun c => c.rank == r) = 4 := by
  decide

/-- One enumeration pass has no duplicate cards. -/
theorem onePass_nodup : onePass.Nodup := by
  decide

/-! ### Lemmas about drawing -/

/-- Evaluation of `k` draws when at least `k` cards remain. -/
theorem drawN_eq : ∀ (k : Nat) (d : DeckState), k ≤ d.cards.length →
    drawN k d = .ok (d.cards.take k, { cards := d.cards.drop k, size := d.size }) := by
  intro k
  induction k with
  | zero => intro d h; simp [drawN]
  | succ k ih =>
    intro d h
    obtain ⟨cards, size⟩ := d
    cases cards with
    | nil => simp at h
    | cons c rest =>
      have h2 : k ≤ rest.length := by simpa using h
      have hr := ih { cards := rest, size := size } h2
      simp [drawN, remove_top, bind, Except.bind, hr]
      rfl

/-- Drawing more cards than remain raises the out-of-range error. -/
theorem drawN_err : ∀ (k : Nat) (d : DeckState), d.cards.length < k →
    drawN k d = .error .indexOutOfRange := by
  intro k
  induction k with
  | zero => intro d h; simp at h
  | succ k ih =>
    intro d h
    obtain ⟨cards, size⟩ := d
    cases cards with
    | nil => simp [drawN, remove_top, bind, Except.bind]
    | cons c rest =>
      have h2 : rest.length < k := by simpa using h
      have hr := ih { cards := rest, size := size } h2
      simp [drawN, remove_top, bind, Except.bind, hr]

/-- A successful run of `k` draws determines the drawn cards and the final
state: the first `k` cards are removed from the front. -/
theorem drawN_ok_inv : ∀ (k : Nat) (d : DeckState) (l : List Card)
    (d2 : DeckState), drawN k d = .ok (l, d2) →
    k ≤ d.cards.length ∧ l = d.cards.take k ∧
      d2 = { cards := d.cards.drop k, size := d.size } := by
  intro k d l d2 h
  by_cases hk : k ≤ d.cards.length
  · have := drawN_eq k d hk
    rw [this] at h
    injection h with h
    injection h with h1 h2
    exact ⟨hk, h1.symm, h2.symm⟩
  · have := drawN_err k d (by omega)
    rw [this] at h
    cases h

/-! ### Lemmas about card equality and ordering -/

/-- `cardEq` tests exactly rank-and-suit equality. -/
theorem cardEq_iff (a b : Card) :
    cardEq a b = true ↔ a.rank = b.rank ∧ a.suit = b.suit := by
  by_cases h : (a.rank, a.suit) = (b.rank, b.suit)
  · simp [cardEq, h]
    exact ⟨congrArg Prod.fst h, congrArg Prod.snd h⟩
  · simp [cardEq, h]
    intro h1 h2
    exact h (by rw [h1, h2])

/-- `cardEq` is symmetric. -/
theorem cardEq_symm (a b : Card) : cardEq a b = cardEq b a := by
  unfold cardEq
  by_cases h : (a.rank, a.suit) = (b.rank, b.suit)
  · rw [if_pos h, if_pos h.symm]
  · rw [if_neg h, if_neg (fun hc => h hc.symm)]

/-- Index in `RANKS` determines a valid rank. -/
theorem ranks_indexOf_inj : ∀ r1 ∈ RANKS, ∀ r2 ∈ RANKS,
    RANKS.indexOf r1 = RANKS.indexOf r2 → r1 = r2 := by
  decide

/-- Index in the reversed `SUITS` determines a valid suit. -/
theorem suits_rev_indexOf_inj : ∀ s1 ∈ SUITS, ∀ s2 ∈ SUITS,
    SUITS.reverse.indexOf s1 = SUITS.reverse.indexOf s2 → s1 = s2 := by
  decide

/-- Trichotomy of the card comparison on valid (constructible) cards. -/
theorem cardLt_trichotomy (a b : Card) (har : a.rank ∈ RANKS)
    (has2 : a.suit ∈ SUITS) (hbr : b.rank ∈ RANKS) (hbs : b.suit ∈ SUITS) :
    (cardEq a b = true ∧ cardLt a b = false ∧ cardLt b a = false) ∨
    (cardEq a b = false ∧ cardLt a b = true ∧ cardLt b a = false) ∨
    (cardEq a b = false ∧ cardLt a b = false ∧ cardLt b a = true) := by
  by_cases heq : cardEq a b = true
  · left
    have hba : cardEq b a = true := by rw [← cardEq_symm]; exact heq
    exact ⟨heq, by simp [cardLt, heq], by simp [cardLt, hba]⟩
  · have hab : cardEq a b = false := by simpa using heq
    have hba : cardEq b a = false := by rw [← cardEq_symm]; exact hab
    have hne : ¬ (a.rank = b.rank ∧ a.suit = b.suit) := by
      rw [← cardEq_iff]
      simp [hab]
    rcases Nat.lt_trichotomy (RANKS.indexOf a.rank) (RANKS.indexOf b.rank) with
      hlt | heqi | hgt
    · right; left
      have hrne : b.rank ≠ a.rank := by
        intro h
        rw [h] at hlt
        exact lt_irrefl _ hlt
      have h1 : ¬ (RANKS.indexOf b.rank < RANKS.indexOf a.rank) := by omega
      exact ⟨hab, by simp [cardLt, hab, hlt], by simp [cardLt, hba, h1, hrne]⟩
    · have hr : a.rank = b.rank := ranks_indexOf_inj a.rank har b.rank hbr heqi
      have hsne : a.suit ≠ b.suit := fun h => hne ⟨hr, h⟩
      have hsidx : SUITS.reverse.indexOf a.suit ≠ SUITS.reverse.indexOf b.suit :=
        fun h => hsne (suits_rev_indexOf_inj a.suit has2 b.suit hbs h)
      have h1 : ¬ (RANKS.indexOf a.rank < RANKS.indexOf b.rank) := by omega
      have h1b : ¬ (RANKS.indexOf b.rank < RANKS.indexOf a.rank) := by omega
      rcases Nat.lt_trichotomy (SUITS.reverse.indexOf a.suit)
          (SUITS.reverse.indexOf b.suit) with hslt | hseq | hsgt
      · right; left
        have h2 : ¬ (SUITS.reverse.indexOf b.suit <
            SUITS.reverse.indexOf a.suit) := by omega
        exact ⟨hab, by simp [cardLt, hab, h1, hr, hslt],
          by simp [cardLt, hba, h1b, hr.symm, h2]⟩
      · exact absurd hseq hsidx
      · right; right
        have h2 : ¬ (SUITS.reverse.indexOf a.suit <
            SUITS.reverse.indexOf b.suit) := by omega
        exact ⟨hab, by simp [cardLt, hab, h1, hr, h2],
          by simp [cardLt, hba, h1b, hr.symm, hsgt]⟩
    · right; right
      have hrne : a.rank ≠ b.rank := by
        intro h
        rw [h] at hgt
        exact lt_irrefl _ hgt
      have h1 : ¬ (RANKS.indexOf a.rank < RANKS.indexOf b.rank) := by omega
      exact ⟨hab, by simp [cardLt, hab, h1, hrne], by simp [cardLt, hba, hgt]⟩

/-- C4: on valid cards the comparison operators form a strict total order
keyed by rank index ascending then suit index descending (Spades highest):
exactly one of less-than, greater-than, equal holds, an equal card is never
less, `K-D < K-S` is true, `K-S < K-D` is false, and `2-S < 3-S`. -/
theorem card_order_strict_total :
    (∀ a b : Card,
      a.rank ∈ RANKS → a.suit ∈ SUITS → b.rank ∈ RANKS → b.suit ∈ SUITS →
      ((cardEq a b = true ∧ cardLt a b = false ∧ cardLt b a = false) ∨
       (cardEq a b = false ∧ cardLt a b = true ∧ cardLt b a = false) ∨
       (cardEq a b = false ∧ cardLt a b = false ∧ cardLt b a = true))) ∧
    (∀ a b : Card, cardEq a b = true → cardLt a b = false) ∧
    cardLt (mkCardTotal "K" "D") (mkCardTotal "K" "S") = true ∧
    cardLt (mkCardTotal "K" "S") (mkCardTotal "K" "D") = false ∧
    cardLt (mkCardTotal "2" "S") (mkCardTotal "3" "S") = true := by
  refine ⟨cardLt_trichotomy, ?_, by decide, by decide, by decide⟩
  intro a b h
  simp [cardLt, h]

/-- Witness for C4 at the concrete cards A-S and K-C. -/
theorem card_order_strict_total_witness :
    (cardEq (mkCardTotal "A" "S") (mkCardTotal "K" "C") = true ∧
      cardLt (mkCardTotal "A" "S") (mkCardTotal "K" "C") = false ∧
      cardLt (mkCardTotal "K" "C") (mkCardTotal "A" "S") = false) ∨
    (cardEq (mkCardTotal "A" "S") (mkCardTotal "K" "C") = false ∧
      cardLt (mkCardTotal "A" "S") (mkCardTotal "K" "C") = true ∧
      cardLt (mkCardTotal "K" "C") (mkCardTotal "A" "S") = false) ∨
    (cardEq (mkCardTotal "A" "S") (mkCardTotal "K" "C") = false ∧
      cardLt (mkCardTotal "A" "S") (mkCardTotal "K" "C") = false ∧
      cardLt (mkCardTotal "K" "C") (mkCardTotal "A" "S") = true) :=
  card_order_strict_total.1 (mkCardTotal "A" "S") (mkCardTotal "K" "C")
    (by decide) (by decide) (by decide) (by decide)

/-- C5: card equality is exactly (rank, suit) equality, reflexive and
symmetric, for cards of every variant; the variant tag and the derived
`value`/`high_value` attributes play no role. -/
theorem card_eq_exactly_rank_suit :
    ∀ a b : Card,
      (cardEq a b = true ↔ a.rank = b.rank ∧ a.suit = b.suit) ∧
      cardEq a a = true ∧
      cardEq a b = cardEq b a ∧
      (∀ (v : Nat) (hv : Option Nat) (kk : CardKind),
        cardEq { rank := a.rank, suit := a.suit, value := v, high_value := hv,
                 kind := kk } b = cardEq a b) := by
  intro a b
  refine ⟨cardEq_iff a b, by simp [cardEq], cardEq_symm a b, ?_⟩
  intro v hv kk
  rfl

/-- C6: every valid rank/suit pair constructs, the resulting card carries
exactly the input rank and suit, and the value is derived from the variant:
Ace has value 1 and high_value 11, NumberCard at position i of `NUMBERCARDS`
has value i+2 (its numeric rank), FaceCard has value 10. -/
theorem card_variant_construction :
    (∀ s ∈ SUITS, Ace.init s =
      .ok { rank := "A", suit := s, value := 1, high_value := some 11,
            kind := .ace }) ∧
    (∀ r ∈ FACECARDS, ∀ s ∈ SUITS, FaceCard.init r s =
      .ok { rank := r, suit := s, value := 10, high_value := none,
            kind := .face }) ∧
    (∀ s ∈ SUITS, ∀ i : Fin NUMBERCARDS.length,
      NumberCard.init (NUMBERCARDS.get i) s =
        .ok { rank := NUMBERCARDS.get i, suit := s, value := i.val + 2,
              high_value := none, kind := .number }) := by
  refine ⟨?_, ?_, ?_⟩ <;> decide

/-- Witness for C6: the Ace of Spades constructs as specified. -/
theorem card_variant_construction_witness :
    Ace.init "S" = .ok { rank := "A", suit := "S", value := 1,
                         high_value := some 11, kind := .ace } :=
  card_variant_construction.1 "S" (by decide)

/-- C7: invalid arguments fail with the matching error kind: a rank outside
the variant's accepted set raises the invalid-rank error, a suit outside
S, D, H, C raises the invalid-suit error (the only check Ace performs), and
the error is returned to the caller, never defaulted. -/
theorem card_invalid_construction :
    (∀ r s : String, r ∉ RANKS → AbstractCard.init r s = .error .invalidRank) ∧
    (∀ r s : String, r ∈ RANKS → s ∉ SUITS →
      AbstractCard.init r s = .error .invalidSuit) ∧
    (∀ r s : String, r ∉ FACECARDS → FaceCard.init r s = .error .invalidRank) ∧
    (∀ r s : String, r ∈ FACECARDS → s ∉ SUITS →
      FaceCard.init r s = .error .invalidSuit) ∧
    (∀ r s : String, r ∉ NUMBERCARDS →
      NumberCard.init r s = .error .invalidRank) ∧
    (∀ r s : String, r ∈ NUMBERCARDS → s ∉ SUITS →
      NumberCard.init r s = .error .invalidSuit) ∧
    (∀ s : String, s ∉ SUITS → Ace.init s = .error .invalidSuit) := by
  refine ⟨?_, ?_, ?_, ?_, ?_, ?_, ?_⟩
  · intro r s h
    simp [AbstractCard.init, h]
  · intro r s hr hs2
    simp [AbstractCard.init, hr, hs2]
  · intro r s h
    simp [FaceCard.init, h]
  · intro r s hr hs2
    have hR : r ∈ RANKS := by fin_cases hr <;> decide
    simp [FaceCard.init, AbstractCard.init, hr, hR, hs2, bind, Except.bind]
  · intro r s h
    simp [NumberCard.init, h]
  · intro r s hr hs2
    have hR : r ∈ RANKS := by fin_cases hr <;> decide
    simp [NumberCard.init, AbstractCard.init, hr, hR, hs2, bind, Except.bind]
  · intro s h
    have hA : "A" ∈ RANKS := by decide
    simp [Ace.init, AbstractCard.init, hA, h, bind, Except.bind]

/-- Witness for C7: rank "X" is rejected as an invalid rank. -/
theorem card_invalid_construction_witness :
    AbstractCard.init "X" "S" = .error .invalidRank :=
  card_invalid_construction.1 "X" "S" (by decide)

/-- C1: whatever `num_decks` option is supplied, a `StdDeck` comes out with
length 52, `size` 52, exactly one card of each (rank, suit) pair, 4 cards of
each rank, and no duplicates, for every outcome of the random source. -/
theorem stdDeck_always_single_52 (shuffles : Nat → List Card → List Card)
    (pick : Nat) (kwrds : Option Int)
    (hs : ∀ i l, (shuffles i l).Perm l) :
    ∃ d, StdDeck.init shuffles pick kwrds = .ok d ∧
      d.cards.length = 52 ∧ d.size = 52 ∧
      (∀ r ∈ RANKS, ∀ s ∈ SUITS,
        d.cards.countP (fun c => c.rank == r && c.suit == s) = 1) ∧
      (∀ r ∈ RANKS, d.cards.countP (fun c => c.rank == r) = 4) ∧
      d.cards.Nodup := by
  obtain ⟨d, hinit, hperm, hsize⟩ :=
    AbstractDeck.init_perm shuffles pick (some 1) (by norm_num) hs
  have hperm1 : d.cards.Perm (enumDeck 1) := by simpa using hperm
  refine ⟨d, hinit, ?_, by simpa using hsize, ?_, ?_, ?_⟩
  · rw [hperm1.length_eq, enumDeck_length]
  · intro r hr s hs2
    rw [hperm1.countP_eq, enumDeck_countP, onePass_countP_pair r hr s hs2,
      mul_one]
  · intro r hr
    rw [hperm1.countP_eq, enumDeck_countP, onePass_countP_rank r hr]
  · have he : enumDeck 1 = onePass := by
      simp [enumDeck, List.range_succ]
    exact hperm1.nodup_iff.mpr (he ▸ onePass_nodup)

/-- Witness for C1 with identity shuffles, pick 0 and the option set to 5. -/
theorem stdDeck_always_single_52_witness :
    ∃ d, StdDeck.init (fun _ l => l) 0 (some 5) = .ok d ∧
      d.cards.length = 52 ∧ d.size = 52 ∧
      (∀ r ∈ RANKS, ∀ s ∈ SUITS,
        d.cards.countP (fun c => c.rank == r && c.suit == s) = 1) ∧
      (∀ r ∈ RANKS, d.cards.countP (fun c => c.rank == r) = 4) ∧
      d.cards.Nodup :=
  stdDeck_always_single_52 (fun _ l => l) 0 (some 5)
    (fun _ l => List.Perm.refl l)

/-- C2: a `CardShoe` built with no `num_decks` behaves as one built with 6;
the result has length 312, `size` 312, and exactly 6 copies of each distinct
(rank, suit) pair, for every outcome of the random source. -/
theorem cardShoe_default_six (shuffles : Nat → List Card → List Card)
    (pick : Nat) (hs : ∀ i l, (shuffles i l).Perm l) :
    CardShoe.init shuffles pick none = CardShoe.init shuffles pick (some 6) ∧
    ∃ d, CardShoe.init shuffles pick none = .ok d ∧
      d.cards.length = 312 ∧ d.size = 312 ∧
      ∀ r ∈ RANKS, ∀ s ∈ SUITS,
        d.cards.countP (fun c => c.rank == r && c.suit == s) = 6 := by
  refine ⟨rfl, ?_⟩
  obtain ⟨d, hinit, hperm, hsize⟩ :=
    AbstractDeck.init_perm shuffles pick (some 6) (by norm_num) hs
  have hperm6 : d.cards.Perm (enumDeck 6) := by simpa using hperm
  refine ⟨d, hinit, ?_, by simpa using hsize, ?_⟩
  · rw [hperm6.length_eq, enumDeck_length]
  · intro r hr s hs2
    rw [hperm6.countP_eq, enumDeck_countP, onePass_countP_pair r hr s hs2,
      mul_one]

/-- Witness for C2 with identity shuffles and pick 0. -/
theorem cardShoe_default_six_witness :
    CardShoe.init (fun _ l => l) 0 none =
      CardShoe.init (fun _ l => l) 0 (some 6) ∧
    ∃ d, CardShoe.init (fun _ l => l) 0 none = .ok d ∧
      d.cards.length = 312 ∧ d.size = 312 ∧
      ∀ r ∈ RANKS, ∀ s ∈ SUITS,
        d.cards.countP (fun c => c.rank == r && c.suit == s) = 6 :=
  cardShoe_default_six (fun _ l => l) 0 (fun _ l => List.Perm.refl l)

/-- C3: for every non-negative deck count and every outcome of the random
source, construction succeeds, the randint draw for the extra shuffles lies
between 0 and `size` inclusive, the final contents are obtained by the
initial shuffle followed by that many additional shuffle passes, the result
is a permutation of the enumerated multiset, and every block of additional
shuffles preserves the multiset. -/
theorem deck_is_perm_of_enum (shuffles : Nat → List Card → List Card)
    (pick : Nat) (kwrds : Option Int) (h0 : 0 ≤ kwrds.getD 1)
    (hs : ∀ i l, (shuffles i l).Perm l) :
    ∃ d extra,
      AbstractDeck.init shuffles pick kwrds = .ok d ∧
      randintModel pick 0 (52 * kwrds.getD 1) = .ok extra ∧
      0 ≤ extra ∧ extra ≤ 52 * kwrds.getD 1 ∧
      d.cards = applyShuffles shuffles 1 extra.toNat
        (shuffles 0 (enumDeck (kwrds.getD 1).toNat)) ∧
      d.cards.Perm (enumDeck (kwrds.getD 1).toNat) ∧
      (∀ i k l, (applyShuffles shuffles i k l).Perm l) := by
  have hm0 : (0 : Int) ≤ 52 * kwrds.getD 1 := by omega
  have hlt : ¬ (52 * kwrds.getD 1 < 0) := by omega
  refine ⟨_, (pick : Int) % (52 * kwrds.getD 1 + 1),
    AbstractDeck.init_ok shuffles pick kwrds h0, ?_, ?_, ?_, rfl, ?_,
    fun i k l => applyShuffles_perm shuffles hs k i l⟩
  · simp [randintModel, hlt]
  · exact Int.emod_nonneg _ (by omega)
  · have h2 := Int.emod_lt_of_pos (pick : Int)
      (show (0 : Int) < 52 * kwrds.getD 1 + 1 by omega)
    omega
  · exact (applyShuffles_perm shuffles hs _ _ _).trans (hs 0 _)

/-- Witness for C3 with identity shuffles, pick 3 and two decks. -/
theorem deck_is_perm_of_enum_witness :
    ∃ d extra,
      AbstractDeck.init (fun _ l => l) 3 (some 2) = .ok d ∧
      randintModel 3 0 (52 * (some (2 : Int)).getD 1) = .ok extra ∧
      0 ≤ extra ∧ extra ≤ 52 * (some (2 : Int)).getD 1 ∧
      d.cards = applyShuffles (fun _ l => l) 1 extra.toNat
        ((fun (_ : Nat) (l : List Card) => l) 0
          (enumDeck ((some (2 : Int)).getD 1).toNat)) ∧
      d.cards.Perm (enumDeck ((some (2 : Int)).getD 1).toNat) ∧
      (∀ i k l, (applyShuffles (fun _ l => l) i k l).Perm l) :=
  deck_is_perm_of_enum (fun _ l => l) 3 (some 2) (by norm_num)
    (fun _ l => List.Perm.refl l)

/-- C8: `remove_top` removes and returns the front card; from a freshly built
deck, drawing all `N` cards succeeds and yields exactly the deck's contents
(a permutation of the full enumerated multiset, with no duplicates in the
single-deck case), intermediate draws shrink the deck by one card each, and
the (N+1)-th draw fails with the out-of-range (empty deck) error. -/
theorem draw_all_then_empty (shuffles : Nat → List Card → List Card)
    (pick : Nat) (kwrds : Option Int) (h0 : 0 ≤ kwrds.getD 1)
    (hs : ∀ i l, (shuffles i l).Perm l) :
    ∃ d, AbstractDeck.init shuffles pick kwrds = .ok d ∧
      (∀ (c : Card) (rest : List Card) (sz : Int),
        remove_top { cards := c :: rest, size := sz } =
          .ok (c, { cards := rest, size := sz })) ∧
      (∀ k, k ≤ d.cards.length →
        drawN k d = .ok (d.cards.take k,
          { cards := d.cards.drop k, size := d.size })) ∧
      drawN d.cards.length d = .ok (d.cards, { cards := [], size := d.size }) ∧
      d.cards.Perm (enumDeck (kwrds.getD 1).toNat) ∧
      drawN (d.cards.length + 1) d = .error .indexOutOfRange ∧
      (kwrds.getD 1 = 1 → d.cards.Nodup) := by
  obtain ⟨d, hinit, hperm, hsize⟩ :=
    AbstractDeck.init_perm shuffles pick kwrds h0 hs
  refine ⟨d, hinit, fun c rest sz => rfl, fun k hk => drawN_eq k d hk, ?_,
    hperm, drawN_err _ d (by omega), ?_⟩
  · have h := drawN_eq d.cards.length d (le_refl _)
    simpa using h
  · intro h1
    rw [h1] at hperm
    have hperm1 : d.cards.Perm (enumDeck 1) := by simpa using hperm
    have he : enumDeck 1 = onePass := by
      simp [enumDeck, List.range_succ]
    exact hperm1.nodup_iff.mpr (he ▸ onePass_nodup)

/-- Witness for C8 with identity shuffles, pick 0 and one deck. -/
theorem draw_all_then_empty_witness :
    ∃ d, AbstractDeck.init (fun _ l => l) 0 (some 1) = .ok d ∧
      (∀ (c : Card) (rest : List Card) (sz : Int),
        remove_top { cards := c :: rest, size := sz } =
          .ok (c, { cards := rest, size := sz })) ∧
      (∀ k, k ≤ d.cards.length →
        drawN k d = .ok (d.cards.take k,
          { cards := d.cards.drop k, size := d.size })) ∧
      drawN d.cards.length d = .ok (d.cards, { cards := [], size := d.size }) ∧
      d.cards.Perm (enumDeck ((some (1 : Int)).getD 1).toNat) ∧
      drawN (d.cards.length + 1) d = .error .indexOutOfRange ∧
      ((some (1 : Int)).getD 1 = 1 → d.cards.Nodup) :=
  draw_all_then_empty (fun _ l => l) 0 (some 1) (by norm_num)
    (fun _ l => List.Perm.refl l)

/-- C9: `remaining_cards` always reports the current length against the
`size` fixed at construction, both on the fresh deck and after any successful
sequence of draws; draws never change `size`, and `remaining_cards` itself is
a pure observer returning only a string. -/
theorem remaining_cards_accurate (shuffles : Nat → List Card → List Card)
    (pick : Nat) (kwrds : Option Int) (h0 : 0 ≤ kwrds.getD 1)
    (hs : ∀ i l, (shuffles i l).Perm l) :
    ∃ d, AbstractDeck.init shuffles pick kwrds = .ok d ∧
      remaining_cards d =
        toString d.cards.length ++ " of " ++ toString d.size ++
          " cards remain" ∧
      (∀ k l d2, drawN k d = .ok (l, d2) →
        d2.size = d.size ∧
        remaining_cards d2 =
          toString (d.cards.length - k) ++ " of " ++ toString d.size ++
            " cards remain") := by
  obtain ⟨d, hinit, hperm, hsize⟩ :=
    AbstractDeck.init_perm shuffles pick kwrds h0 hs
  refine ⟨d, hinit, rfl, ?_⟩
  intro k l d2 hdraw
  obtain ⟨hk, hl, hd2⟩ := drawN_ok_inv k d l d2 hdraw
  subst hd2
  exact ⟨rfl, by simp [remaining_cards]⟩

/-- Witness for C9 with identity shuffles, pick 0 and one deck. -/
theorem remaining_cards_accurate_witness :
    ∃ d, AbstractDeck.init (fun _ l => l) 0 (some 1) = .ok d ∧
      remaining_cards d =
        toString d.cards.length ++ " of " ++ toString d.size ++
          " cards remain" ∧
      (∀ k l d2, drawN k d = .ok (l, d2) →
        d2.size = d.size ∧
        remaining_cards d2 =
          toString (d.cards.length - k) ++ " of " ++ toString d.size ++
            " cards remain") :=
  remaining_cards_accurate (fun _ l => l) 0 (some 1) (by norm_num)
    (fun _ l => List.Perm.refl l)

/-- C10 counterexample: for the explicitly supplied non-positive integer
`num_decks = -1`, `CardShoe` construction does not succeed: the
`randint(0, size)` call sees the empty range [0, -52] and raises, so the
constructor propagates an error instead of returning a deck. -/
theorem cardShoe_negative_raises :
    CardShoe.init (fun _ l => l) 0 (some (-1)) = .error .emptyRange := by
  rfl

/-- C10 amended: `CardShoe` performs no positivity check on `num_decks`.
With `num_decks = 0` construction succeeds, yielding an empty deck of length
0 whose `size` is `52 * 0 = 0`, and the very first `remove_top` fails with
the empty-deck (index out of range) error; with a negative `num_decks` the
card loop is skipped but `randint(0, size)` raises on its empty range, so
construction fails with that error rather than a validation error. -/
theorem cardShoe_zero_decks (shuffles : Nat → List Card → List Card)
    (pick : Nat) (hs : ∀ i l, (shuffles i l).Perm l) :
    (∃ d, CardShoe.init shuffles pick (some 0) = .ok d ∧
      d.cards = [] ∧ d.cards.length = 0 ∧ d.size = 52 * 0 ∧
      remove_top d = .error .indexOutOfRange) ∧
    (∀ m : Int, m < 0 →
      CardShoe.init shuffles pick (some m) = .error .emptyRange) := by
  constructor
  · obtain ⟨d, hinit, hperm, hsize⟩ :=
      AbstractDeck.init_perm shuffles pick (some 0) (by norm_num) hs
    have hnil : d.cards = [] := hperm.eq_nil
    have hrt : remove_top d = .error .indexOutOfRange := by
      obtain ⟨cards, sz⟩ := d
      simp only at hnil
      subst hnil
      rfl
    exact ⟨d, hinit, hnil, by simp [hnil], by simpa using hsize, hrt⟩
  · intro m hm
    have ht : m.toNat = 0 := Int.toNat_of_nonpos (le_of_lt hm)
    have hneg : 52 * m < 0 := by omega
    show AbstractDeck.init shuffles pick (some m) = .error .emptyRange
    simp [AbstractDeck.init, randintModel, hneg, ht, buildLoop, bind,
      Except.bind]

/-- Witness for the amended C10 with identity shuffles and pick 0. -/
theorem cardShoe_zero_decks_witness :
    (∃ d, CardShoe.init (fun _ l => l) 0 (some 0) = .ok d ∧
      d.cards = [] ∧ d.cards.length = 0 ∧ d.size = 52 * 0 ∧
      remove_top d = .error .indexOutOfRange) ∧
    (∀ m : Int, m < 0 →
      CardShoe.init (fun _ l => l) 0 (some m) = .error .emptyRange) :=
  cardShoe_zero_decks (fun _ l => l) 0 (fun _ l => List.Perm.refl l)
